import Mathlib

/-
Shallow embedding of the SimpleVector container
(src/simple-vector/simple_vector.h together with the owning-buffer helper
src/simple-vector/array_ptr.h).

Modelling choices:
  * The backing allocation (ArrayPtr of size capacity_) is a `List α` whose
    length is the capacity; `new Type[n]` is modelled as `n` default
    constructed slots (the class-type semantics of default initialisation).
  * C++ iterators (`Type*`) are modelled as integer offsets from `begin()`;
    pointer comparisons `pos < begin()` / `pos > end()` become `p < 0` /
    `p > size_`, and `pos - begin()` becomes `p.toNat`.
  * `std::copy`, `std::move` and `std::copy_backward`/`std::move_backward`
    over element ranges denote writing a snapshot of the source segment into
    the destination (`writeSeg`); this is exactly the guarantee of those
    algorithms for the directions in which the source uses them.
  * `throw std::out_of_range` becomes an `Except VecError` result; every
    operation that can throw returns the (unchanged) state next to the error.
  * An out-of-bounds read from the backing buffer has no defined value; the
    one operation whose source performs such a read (the rvalue-reference
    PushBack overload) therefore returns an `Option`, with `none` for the
    undefined case.
-/

inductive VecError where
  | outOfRange
deriving DecidableEq

/-- Allocation of `n` slots, each holding a default-constructed element:
models `new Type[n]` through ArrayPtr (nullptr for `n = 0` is the empty
list). -/
def allocDefault (α : Type) [Inhabited α] (n : Nat) : List α :=
  List.replicate n default

/-- The element range `[first, last)` of a buffer. -/
def seg (l : List α) (first last : Nat) : List α :=
  (l.drop first).take (last - first)

/-- Write the sequence `xs` into `dst` starting at offset `i`:
the denotation of `std::copy`/`std::move`/`std::copy_backward` with a
snapshot `xs` of the source range. -/
def writeSeg (dst : List α) (i : Nat) (xs : List α) : List α :=
  dst.take i ++ xs ++ dst.drop (i + xs.length)

/-- The loop `for (j = a; j < b; ++j) l[j] = Type();`. -/
def setDefaults [Inhabited α] (l : List α) (a b : Nat) : List α :=
  writeSeg l a (List.replicate (b - a) default)

/-- SimpleVector<Type>: logical size, capacity, and the backing ArrayPtr
storage (a list of length capacity_). -/
structure SimpleVector (α : Type) where
  size_ : Nat
  capacity_ : Nat
  data_ : List α
deriving DecidableEq

namespace SimpleVector

/-- The representation invariant every C++ SimpleVector state satisfies:
`size_ <= capacity_` and the allocation really has `capacity_` slots. -/
def WF (v : SimpleVector α) : Prop :=
  v.size_ ≤ v.capacity_ ∧ v.data_.length = v.capacity_

instance : DecidablePred (WF (α := α)) := fun v => by
  unfold WF; infer_instance

/-- The default constructor `SimpleVector()`: size 0, capacity 0, null
buffer. -/
def mkEmpty (α : Type) : SimpleVector α := ⟨0, 0, []⟩

/-- GetSize(). -/
def GetSize (v : SimpleVector α) : Nat := v.size_

/-- GetCapacity(). -/
def GetCapacity (v : SimpleVector α) : Nat := v.capacity_

/-- IsEmpty(). -/
def IsEmpty (v : SimpleVector α) : Bool := v.size_ == 0

/-- The live elements, i.e. the range `[begin(), end())`. -/
def elems (v : SimpleVector α) : List α := v.data_.take v.size_

/-- The unchecked `operator[]`: `data_[index]` (defined behaviour under the
precondition `index < size_`). -/
def opIndex [Inhabited α] (v : SimpleVector α) (index : Nat) : α :=
  v.data_.getD index default

/-- At(index): throws out_of_range when `index >= size_`, otherwise returns
`data_[index]`. -/
def At [Inhabited α] (v : SimpleVector α) (index : Nat) : Except VecError α :=
  if index ≥ v.size_ then .error .outOfRange
  else .ok (v.data_.getD index default)

/-- Clear(): sets size to 0, retains capacity and buffer. -/
def Clear (v : SimpleVector α) : SimpleVector α :=
  ⟨0, v.capacity_, v.data_⟩

/-- Resize(new_size). Branches exactly as the source: no-op when equal;
when `new_size > capacity_` allocate `new_size` slots, move the live
elements across and default the tail; otherwise reset the slots
`[new_size, size_)` (the loop body runs only when shrinking) and set the
size. -/
def Resize [Inhabited α] (v : SimpleVector α) (new_size : Nat) : SimpleVector α :=
  if new_size = v.size_ then v
  else if new_size > v.capacity_ then
    let new_capacity := new_size
    let moved := writeSeg (allocDefault α new_capacity) 0 (seg v.data_ 0 v.size_)
    let filled := setDefaults moved v.size_ new_size
    ⟨new_size, new_capacity, filled⟩
  else
    ⟨new_size, v.capacity_, setDefaults v.data_ new_size v.size_⟩

/-- PushBack(const Type&): on a full vector grow to
`capacity_ == 0 ? 1 : capacity_ * 2`, copy the `size_` live elements into
the fresh buffer, then write `item` at offset `size_` and increment the
size. -/
def PushBack [Inhabited α] (v : SimpleVector α) (item : α) : SimpleVector α :=
  if v.size_ = v.capacity_ then
    let new_capacity := if v.capacity_ = 0 then 1 else v.capacity_ * 2
    let new_data := writeSeg (allocDefault α new_capacity) 0 (seg v.data_ 0 v.size_)
    ⟨v.size_ + 1, new_capacity, new_data.set v.size_ item⟩
  else
    ⟨v.size_ + 1, v.capacity_, v.data_.set v.size_ item⟩

/-- PushBack(Type&&). The source's grow branch runs
`std::move(begin(), end() + size_, new_data.Get())`, i.e. it reads the
range `[0, 2 * size_)` of the old buffer; when that range leaves the
allocation the read is undefined, modelled as `none`. -/
def PushBackMv [Inhabited α] (v : SimpleVector α) (item : α) :
    Option (SimpleVector α) :=
  if v.size_ = v.capacity_ then
    let new_capacity := if v.capacity_ = 0 then 1 else v.capacity_ * 2
    if 2 * v.size_ ≤ v.data_.length then
      let new_data := writeSeg (allocDefault α new_capacity) 0 (seg v.data_ 0 (2 * v.size_))
      some ⟨v.size_ + 1, new_capacity, new_data.set v.size_ item⟩
    else none
  else some ⟨v.size_ + 1, v.capacity_, v.data_.set v.size_ item⟩

/-- Insert(ConstIterator pos, const Type&), with `pos` the signed offset of
the iterator from `begin()`. Returns the new state next to
`begin() + insert_index` (as an offset) or the thrown error. -/
def Insert [Inhabited α] (v : SimpleVector α) (pos : Int) (value : α) :
    SimpleVector α × Except VecError Nat :=
  if pos < 0 ∨ pos > (v.size_ : Int) then (v, .error .outOfRange)
  else
    let insert_index := pos.toNat
    if v.size_ = v.capacity_ then
      let new_capacity := if v.capacity_ = 0 then 1 else v.capacity_ * 2
      let d1 := writeSeg (allocDefault α new_capacity) 0 (seg v.data_ 0 insert_index)
      let d2 := d1.set insert_index value
      let d3 := writeSeg d2 (insert_index + 1) (seg v.data_ insert_index v.size_)
      (⟨v.size_ + 1, new_capacity, d3⟩, .ok insert_index)
    else
      let d1 := writeSeg v.data_ (insert_index + 1) (seg v.data_ insert_index v.size_)
      let d2 := d1.set insert_index value
      (⟨v.size_ + 1, v.capacity_, d2⟩, .ok insert_index)

/-- Insert(ConstIterator pos, Type&&): the move overload; element moves
denote the same value transfer as copies. -/
def InsertMv [Inhabited α] (v : SimpleVector α) (pos : Int) (value : α) :
    SimpleVector α × Except VecError Nat :=
  if pos < 0 ∨ pos > (v.size_ : Int) then (v, .error .outOfRange)
  else
    let insert_index := pos.toNat
    if v.size_ = v.capacity_ then
      let new_capacity := if v.capacity_ = 0 then 1 else v.capacity_ * 2
      let d1 := writeSeg (allocDefault α new_capacity) 0 (seg v.data_ 0 insert_index)
      let d2 := d1.set insert_index value
      let d3 := writeSeg d2 (insert_index + 1) (seg v.data_ insert_index v.size_)
      (⟨v.size_ + 1, new_capacity, d3⟩, .ok insert_index)
    else
      let d1 := writeSeg v.data_ (insert_index + 1) (seg v.data_ insert_index v.size_)
      let d2 := d1.set insert_index value
      (⟨v.size_ + 1, v.capacity_, d2⟩, .ok insert_index)

/-- Erase(ConstIterator pos): throws on an empty vector or an offset outside
`[0, size_)`; otherwise moves `[pos + 1, end())` one slot left, decrements
the size, defaults the vacated trailing slot and returns the erase offset. -/
def Erase [Inhabited α] (v : SimpleVector α) (pos : Int) :
    SimpleVector α × Except VecError Nat :=
  if v.size_ = 0 then (v, .error .outOfRange)
  else if pos < 0 ∨ pos ≥ (v.size_ : Int) then (v, .error .outOfRange)
  else
    let k := pos.toNat
    let d1 := writeSeg v.data_ k (seg v.data_ (k + 1) v.size_)
    (⟨v.size_ - 1, v.capacity_, d1.set (v.size_ - 1) default⟩, .ok k)

/-- The copy constructor: capacity becomes the source's size and the `size_`
live elements are copied into the fresh allocation. -/
def copyCtor [Inhabited α] (other : SimpleVector α) : SimpleVector α :=
  ⟨other.size_, other.size_,
   writeSeg (allocDefault α other.size_) 0 (seg other.data_ 0 other.size_)⟩

/-- The copy-assignment operator: the identity check makes self-assignment a
no-op; otherwise a temporary copy is built and swapped in, so the receiver
becomes the copy. `isSelf` models the pointer identity `this == &other`. -/
def copyAssign [Inhabited α] (self other : SimpleVector α) (isSelf : Bool) :
    SimpleVector α :=
  if isSelf then self else copyCtor other

/-- The move constructor: returns the constructed vector next to the state
the source is left in (sizes exchanged with 0, buffer moved out). -/
def moveCtor (other : SimpleVector α) : SimpleVector α × SimpleVector α :=
  (⟨other.size_, other.capacity_, other.data_⟩, ⟨0, 0, []⟩)

/-- The move-assignment operator: with the identity check a self move is a
no-op (both components are the one object); otherwise size, capacity and
buffer transfer and the source is emptied. -/
def moveAssign (self other : SimpleVector α) (isSelf : Bool) :
    SimpleVector α × SimpleVector α :=
  if isSelf then (self, self)
  else (⟨other.size_, other.capacity_, other.data_⟩, ⟨0, 0, []⟩)

end SimpleVector

/-- std::lexicographical_compare over the two element ranges. -/
def lexLt [LinearOrder α] : List α → List α → Bool
  | _, [] => false
  | [], _ :: _ => true
  | a :: as, b :: bs => if a < b then true else if b < a then false else lexLt as bs

/-- std::equal over `[lhs.begin(), lhs.end())` against a second range. -/
def stdEqual [DecidableEq α] : List α → List α → Bool
  | [], _ => true
  | _ :: _, [] => false
  | a :: as, b :: bs => if a = b then stdEqual as bs else false

/-- operator< : lexicographical comparison of the live element ranges. -/
def vecLt [Inhabited α] [LinearOrder α] (lhs rhs : SimpleVector α) : Bool :=
  lexLt (SimpleVector.elems lhs) (SimpleVector.elems rhs)

/-- operator== : equal sizes and std::equal on the live ranges. -/
def vecEq [Inhabited α] [DecidableEq α] (lhs rhs : SimpleVector α) : Bool :=
  (SimpleVector.GetSize lhs == SimpleVector.GetSize rhs)
    && stdEqual (SimpleVector.elems lhs) (SimpleVector.elems rhs)

/-- operator!= : `!(lhs == rhs)`. -/
def vecNe [Inhabited α] [DecidableEq α] (lhs rhs : SimpleVector α) : Bool :=
  !(vecEq lhs rhs)

/-- operator> : `rhs < lhs`. -/
def vecGt [Inhabited α] [LinearOrder α] (lhs rhs : SimpleVector α) : Bool :=
  vecLt rhs lhs

/-- operator<= : `!(lhs > rhs)`. -/
def vecLe [Inhabited α] [LinearOrder α] (lhs rhs : SimpleVector α) : Bool :=
  !(vecGt lhs rhs)

/-- operator>= : `!(lhs < rhs)`. -/
def vecGe [Inhabited α] [LinearOrder α] (lhs rhs : SimpleVector α) : Bool :=
  !(vecLt lhs rhs)

/-- C1: the claim says Resize with `size < newSize <= capacity` default
constructs the slots `[oldSize, newSize)`, in particular after Clear().
Evaluating the code at the failing input `SimpleVector<int> v` built by
`PushBack(5); Clear(); Resize(1)`: the state before Resize has size 0 and
capacity 1 (so the claim's hypotheses hold with newSize = 1), yet after
Resize the element at index 0 is the stale value 5, not the
default-constructed 0 — the within-capacity branch of Resize only resets
slots when shrinking. -/
theorem c1_resize_within_capacity_leaves_stale_values_after_clear :
    SimpleVector.GetSize (SimpleVector.Clear
        (SimpleVector.PushBack (SimpleVector.mkEmpty Int) 5)) < 1 ∧
    1 ≤ SimpleVector.GetCapacity (SimpleVector.Clear
        (SimpleVector.PushBack (SimpleVector.mkEmpty Int) 5)) ∧
    SimpleVector.WF (SimpleVector.Clear
        (SimpleVector.PushBack (SimpleVector.mkEmpty Int) 5)) ∧
    SimpleVector.opIndex (SimpleVector.Resize (SimpleVector.Clear
        (SimpleVector.PushBack (SimpleVector.mkEmpty Int) 5)) 1) 0 = 5 ∧
    SimpleVector.opIndex (SimpleVector.Resize (SimpleVector.Clear
        (SimpleVector.PushBack (SimpleVector.mkEmpty Int) 5)) 1) 0
      ≠ (default : Int) := by
  decide

/-- C2: the claim says PushBack relocates the existing `size` elements when
growing, for both overloads. The rvalue overload's grow branch executes
`std::move(begin(), end() + size_, new_data.Get())`, reading `2 * size_`
elements from a buffer that holds only `size_ = capacity_` slots: on the
second move-PushBack into an initially empty vector the read leaves the
allocation (undefined behaviour, modelled as `none`), while the copy
overload on the same inputs behaves exactly as the claim states. -/
theorem c2_pushback_move_grow_reads_out_of_bounds :
    (SimpleVector.PushBackMv (SimpleVector.mkEmpty Int) 1).bind
        (fun v => SimpleVector.PushBackMv v 2) = none ∧
    SimpleVector.elems (SimpleVector.PushBack
        (SimpleVector.PushBack (SimpleVector.mkEmpty Int) 1) 2) = [1, 2] ∧
    SimpleVector.GetSize (SimpleVector.PushBack
        (SimpleVector.PushBack (SimpleVector.mkEmpty Int) 1) 2) = 2 ∧
    SimpleVector.GetCapacity (SimpleVector.PushBack
        (SimpleVector.PushBack (SimpleVector.mkEmpty Int) 1) 2) = 2 := by
  decide

/-- C10: on a default-constructed vector (size 0, capacity 0, null buffer,
begin() = end()), Insert at begin (offset 0) raises no error and yields a
vector of size 1 and capacity 1 whose single element is the inserted value,
returning the position of that element (offset 0). -/
theorem c10_insert_empty_spec (x : Int) :
    SimpleVector.InsertMv (SimpleVector.mkEmpty Int) 0 x
        = (⟨1, 1, [x]⟩, Except.ok 0) ∧
    SimpleVector.GetSize (SimpleVector.InsertMv (SimpleVector.mkEmpty Int) 0 x).1 = 1 ∧
    SimpleVector.GetCapacity (SimpleVector.InsertMv (SimpleVector.mkEmpty Int) 0 x).1 = 1 ∧
    SimpleVector.elems (SimpleVector.InsertMv (SimpleVector.mkEmpty Int) 0 x).1 = [x] := by
  refine ⟨rfl, rfl, rfl, rfl⟩

/-- C5: the checked accessor At(i) fails with OutOfRange exactly when
`i >= size()`, and for `i < size()` it succeeds with the same element the
unchecked operator[] returns. -/
theorem c5_at_spec (v : SimpleVector Int) (i : Nat) :
    (SimpleVector.At v i = Except.error VecError.outOfRange
        ↔ SimpleVector.GetSize v ≤ i) ∧
    (i < SimpleVector.GetSize v →
        SimpleVector.At v i = Except.ok (SimpleVector.opIndex v i)) := by
  constructor
  · by_cases h : v.size_ ≤ i
    · simp [SimpleVector.At, SimpleVector.GetSize, h]
    · simp [SimpleVector.At, SimpleVector.GetSize, h]
  · intro h
    have h' : ¬ v.size_ ≤ i := Nat.not_le.mpr h
    simp [SimpleVector.At, SimpleVector.opIndex, h']

/-- Witness for C5 at the concrete vector [7]: At(0) succeeds with the
element operator[](0) yields, and At(1) fails with OutOfRange. -/
theorem c5_at_spec_witness :
    SimpleVector.At (⟨1, 1, [7]⟩ : SimpleVector Int) 0 = Except.ok 7 ∧
    SimpleVector.At (⟨1, 1, [7]⟩ : SimpleVector Int) 1
      = Except.error VecError.outOfRange := by
  constructor
  · exact (c5_at_spec ⟨1, 1, [7]⟩ 0).2 (by decide)
  · exact (c5_at_spec ⟨1, 1, [7]⟩ 1).1.mpr (by decide)

/-- C6: Insert with a position outside `[begin, end]` and Erase on an empty
vector or a position outside `[begin, end)` raise OutOfRange, and in every
such case the returned state is exactly the pre-call vector (no partial
mutation). -/
theorem c6_out_of_range_atomic (v : SimpleVector Int) (x : Int) (p : Int) :
    ((p < 0 ∨ (SimpleVector.GetSize v : Int) < p) →
        SimpleVector.Insert v p x = (v, Except.error VecError.outOfRange) ∧
        SimpleVector.InsertMv v p x = (v, Except.error VecError.outOfRange)) ∧
    ((SimpleVector.GetSize v = 0 ∨ p < 0 ∨ (SimpleVector.GetSize v : Int) ≤ p) →
        SimpleVector.Erase v p = (v, Except.error VecError.outOfRange)) := by
  constructor
  · intro h
    have h' : p < 0 ∨ p > (v.size_ : Int) := h
    constructor
    · unfold SimpleVector.Insert
      rw [if_pos h']
    · unfold SimpleVector.InsertMv
      rw [if_pos h']
  · intro h
    unfold SimpleVector.Erase
    by_cases h0 : v.size_ = 0
    · rw [if_pos h0]
    · have h' : p < 0 ∨ p ≥ (v.size_ : Int) := by
        rcases h with h | h | h
        · exact absurd h h0
        · exact Or.inl h
        · exact Or.inr h
      rw [if_neg h0, if_pos h']

/-- Witness for C6 on the concrete vector [1,2] with the out-of-range
offset 5: both Insert overloads and Erase report OutOfRange and return the
unchanged vector. -/
theorem c6_out_of_range_atomic_witness :
    SimpleVector.Insert (⟨2, 2, [1, 2]⟩ : SimpleVector Int) 5 9
        = (⟨2, 2, [1, 2]⟩, Except.error VecError.outOfRange) ∧
    SimpleVector.InsertMv (⟨2, 2, [1, 2]⟩ : SimpleVector Int) 5 9
        = (⟨2, 2, [1, 2]⟩, Except.error VecError.outOfRange) ∧
    SimpleVector.Erase (⟨2, 2, [1, 2]⟩ : SimpleVector Int) 5
        = (⟨2, 2, [1, 2]⟩, Except.error VecError.outOfRange) := by
  have h := c6_out_of_range_atomic ⟨2, 2, [1, 2]⟩ 9 5
  exact ⟨(h.1 (by decide)).1, (h.1 (by decide)).2, h.2 (by decide)⟩

/-- C8: move construction and move-assignment transfer size, capacity and
buffer so the destination holds exactly what the source held, the source
becomes empty (size 0, capacity 0, null buffer), and self-move-assignment
is a no-op. -/
theorem c8_move_spec (a b : SimpleVector Int) :
    (SimpleVector.moveCtor a).1 = a ∧
    SimpleVector.GetSize (SimpleVector.moveCtor a).2 = 0 ∧
    SimpleVector.GetCapacity (SimpleVector.moveCtor a).2 = 0 ∧
    SimpleVector.moveAssign b a false = (a, SimpleVector.mkEmpty Int) ∧
    SimpleVector.moveAssign a a true = (a, a) := by
  exact ⟨rfl, rfl, rfl, rfl, rfl⟩

/-- C7: copy construction (and copy-assignment, which builds a temporary
copy and swaps it in) yields a vector element-wise equal to the source
whose size and capacity both equal the source's size, and self-assignment
(guarded by the identity check) leaves the vector unchanged. -/
theorem c7_copy_spec (a b : SimpleVector Int) (hwf : SimpleVector.WF a) :
    SimpleVector.GetSize (SimpleVector.copyCtor a) = SimpleVector.GetSize a ∧
    SimpleVector.GetCapacity (SimpleVector.copyCtor a) = SimpleVector.GetSize a ∧
    SimpleVector.elems (SimpleVector.copyCtor a) = SimpleVector.elems a ∧
    SimpleVector.copyAssign b a false = SimpleVector.copyCtor a ∧
    SimpleVector.copyAssign a a true = a := by
  obtain ⟨hsc, hlen⟩ := hwf
  have hn : a.size_ ≤ a.data_.length := by rw [hlen]; exact hsc
  refine ⟨rfl, rfl, ?_, rfl, rfl⟩
  unfold SimpleVector.copyCtor SimpleVector.elems writeSeg seg allocDefault
  simp [Nat.min_eq_left hn, List.take_take]

/-- Witness for C7 at the concrete source [4,5] (with excess capacity 3)
and destination [9]. -/
theorem c7_copy_spec_witness :
    SimpleVector.GetSize (SimpleVector.copyCtor (⟨2, 3, [4, 5, 0]⟩ : SimpleVector Int)) = 2 ∧
    SimpleVector.GetCapacity (SimpleVector.copyCtor (⟨2, 3, [4, 5, 0]⟩ : SimpleVector Int)) = 2 ∧
    SimpleVector.elems (SimpleVector.copyCtor (⟨2, 3, [4, 5, 0]⟩ : SimpleVector Int)) = [4, 5] ∧
    SimpleVector.copyAssign (⟨1, 1, [9]⟩ : SimpleVector Int) ⟨2, 3, [4, 5, 0]⟩ false
      = SimpleVector.copyCtor (⟨2, 3, [4, 5, 0]⟩ : SimpleVector Int) ∧
    SimpleVector.copyAssign (⟨2, 3, [4, 5, 0]⟩ : SimpleVector Int) ⟨2, 3, [4, 5, 0]⟩ true
      = ⟨2, 3, [4, 5, 0]⟩ := by
  have h := c7_copy_spec ⟨2, 3, [4, 5, 0]⟩ ⟨1, 1, [9]⟩ (by decide)
  refine ⟨h.1, h.2.1, ?_, h.2.2.2.1, h.2.2.2.2⟩
  rw [h.2.2.1]
  decide

/-- Helper: subtracting one and then `k` is subtracting `k + 1`. -/
theorem natSub_one_sub (n k : Nat) : n - 1 - k = n - (k + 1) := by
  rw [Nat.sub_sub, Nat.add_comm]

/-- Helper: `k + 1` plus the distance from `k` to `n` is `n + 1`. -/
theorem natSucc_add_sub {k n : Nat} (h : k ≤ n) : k + 1 + (n - k) = n + 1 := by
  rw [Nat.add_right_comm, Nat.add_sub_cancel' h]

/-- Helper: `k` plus the distance from `k + 1` to `n` is `n - 1`. -/
theorem natAdd_sub_pred {k n : Nat} (h : k < n) : k + (n - (k + 1)) = n - 1 := by
  rw [← natSub_one_sub]
  exact Nat.add_sub_cancel' (Nat.le_sub_one_of_lt h)

/-- Helper: a positive difference is a successor. -/
theorem natSub_expand {k C : Nat} (h : k < C) : C - k = (C - k - 1) + 1 :=
  (Nat.succ_pred_eq_of_pos (Nat.sub_pos_of_lt h)).symm

/-- Helper: chained subtraction collapsing to `C - (m + 1)`. -/
theorem natSub_chain {k m C : Nat} (h : k ≤ m) : C - k - 1 - (m - k) = C - (m + 1) := by
  rw [Nat.sub_sub C k 1, Nat.sub_sub C (k + 1) (m - k), natSucc_add_sub h]

/-- Helper: an offset `k <= n` never fails the Insert range check. -/
theorem intNot_insert_oob {k n : Nat} (h : k ≤ n) :
    ¬((k : Int) < 0 ∨ (k : Int) > (n : Int)) := fun hc =>
  hc.elim (fun p => absurd p (Int.not_lt.mpr (Int.natCast_nonneg k)))
    (fun p => absurd (Int.ofNat_lt.mp p) (Nat.not_lt.mpr h))

/-- Helper: an offset `k < n` never fails the Erase range check. -/
theorem intNot_erase_oob {k n : Nat} (h : k < n) :
    ¬((k : Int) < 0 ∨ (k : Int) ≥ (n : Int)) := fun hc =>
  hc.elim (fun p => absurd p (Int.not_lt.mpr (Int.natCast_nonneg k)))
    (fun p => absurd (Int.ofNat_le.mp p) (Nat.not_le.mpr h))

/-- Helper: buffer contents after the grow branch of Insert (prefix copy,
write at the insert offset, suffix copy one slot right) on a full buffer. -/
theorem insert_full_buffer (L : List Int) (x : Int) (k C n : Nat)
    (hn : L.length = n) (hk : k ≤ n) (hC : n < C) :
    writeSeg ((writeSeg (List.replicate C (0 : Int)) 0 (seg L 0 k)).set k x)
        (k + 1) (seg L k n)
      = (L.take k ++ x :: L.drop k) ++ List.replicate (C - (n + 1)) 0 := by
  subst hn
  have htkL : (L.take k).length = k := by
    rw [List.length_take]
    exact Nat.min_eq_left hk
  have hseg1 : seg L 0 k = L.take k := rfl
  have hseg2 : seg L k L.length = L.drop k :=
    List.take_of_length_le (Nat.le_of_eq (List.length_drop ..))
  unfold writeSeg
  rw [hseg1, hseg2, htkL]
  rw [List.take_zero, List.nil_append, Nat.zero_add, List.drop_replicate]
  rw [List.set_append_right _ _ (Nat.le_of_eq htkL), htkL, Nat.sub_self]
  rw [natSub_expand (Nat.lt_of_le_of_lt hk hC), List.replicate_succ, List.set_cons_zero]
  rw [List.length_drop]
  have e7 : k + 1 + (L.length - k) = (L.take k).length + (L.length + 1 - k) := by
    rw [htkL, Nat.succ_sub hk, Nat.add_right_comm k 1 (L.length - k), Nat.add_assoc]
  rw [e7, List.drop_append]
  rw [Nat.succ_sub hk, List.drop_succ_cons, List.drop_replicate, natSub_chain hk]
  have e10 : k + 1 = (L.take k).length + 1 := by rw [htkL]
  rw [e10, List.take_append]
  have e11 : (x :: List.replicate (C - k - 1) (0 : Int)).take 1 = [x] := rfl
  rw [e11]
  simp only [List.append_assoc, List.cons_append, List.nil_append]

/-- Helper: buffer contents after the in-place branch of Insert (shift the
suffix one slot right with copy_backward, then write at the insert offset)
on a buffer with spare capacity. -/
theorem insert_nonfull_buffer (L : List Int) (x : Int) (k n : Nat)
    (hk : k ≤ n) (hn : n < L.length) :
    (writeSeg L (k + 1) (seg L k n)).set k x
      = (L.take k ++ x :: ((L.drop k).take (n - k))) ++ L.drop (n + 1) := by
  have hkL : k < L.length := Nat.lt_of_le_of_lt hk hn
  have htkL : (L.take k).length = k := by
    rw [List.length_take]
    exact Nat.min_eq_left (Nat.le_of_lt hkL)
  have htk1 : (L.take (k + 1)).length = k + 1 := by
    rw [List.length_take]
    exact Nat.min_eq_left (Nat.succ_le_of_lt hkL)
  have hS : seg L k n = (L.drop k).take (n - k) := rfl
  have hSlen : ((L.drop k).take (n - k)).length = n - k := by
    rw [List.length_take, List.length_drop]
    exact Nat.min_eq_left (Nat.sub_le_sub_right (Nat.le_of_lt hn) k)
  unfold writeSeg
  rw [hS, hSlen, natSucc_add_sub hk]
  rw [List.append_assoc]
  rw [List.set_append_left _ _ (by rw [htk1]; exact Nat.lt_succ_self k)]
  rw [List.take_succ, List.getElem?_eq_getElem hkL, Option.toList_some]
  rw [List.set_append_right _ _ (Nat.le_of_eq htkL), htkL, Nat.sub_self, List.set_cons_zero]
  simp only [List.append_assoc, List.cons_append, List.nil_append]

/-- Helper: the live range of an explicitly given state. -/
theorem SimpleVector.elems_mk (n c : Nat) (d : List α) :
    SimpleVector.elems ⟨n, c, d⟩ = d.take n := rfl

/-- C3: for every vector and every offset k in [0, size], both Insert
overloads raise no error, return the offset k of the inserted element
(derived from the possibly-new buffer), and yield size + 1 live elements:
the old prefix of length k, then the value, then the old suffix. -/
theorem c3_insert_spec (v : SimpleVector Int) (x : Int) (k : Nat)
    (hwf : SimpleVector.WF v) (hk : k ≤ SimpleVector.GetSize v) :
    (SimpleVector.Insert v (k : Int) x).2 = Except.ok k ∧
    SimpleVector.InsertMv v (k : Int) x = SimpleVector.Insert v (k : Int) x ∧
    SimpleVector.GetSize (SimpleVector.Insert v (k : Int) x).1
        = SimpleVector.GetSize v + 1 ∧
    SimpleVector.elems (SimpleVector.Insert v (k : Int) x).1
        = (SimpleVector.elems v).take k ++ x :: (SimpleVector.elems v).drop k := by
  obtain ⟨hsc, hlen⟩ := hwf
  have hkn : k ≤ v.size_ := hk
  have hcond : ¬((k : Int) < 0 ∨ (k : Int) > (v.size_ : Int)) := intNot_insert_oob hkn
  have hRtake : (SimpleVector.elems v).take k = v.data_.take k := by
    unfold SimpleVector.elems
    rw [List.take_take, Nat.min_eq_left hkn]
  have hRdrop : (SimpleVector.elems v).drop k = (v.data_.drop k).take (v.size_ - k) := by
    unfold SimpleVector.elems
    rw [List.drop_take]
  by_cases hfull : v.size_ = v.capacity_
  · have hLn : v.data_.length = v.size_ := by rw [hlen, ← hfull]
    have hC : v.size_ < (if v.capacity_ = 0 then 1 else v.capacity_ * 2) := by
      by_cases h0 : v.capacity_ = 0
      · rw [if_pos h0, hfull, h0]
        exact Nat.zero_lt_one
      · rw [if_neg h0, hfull, Nat.mul_two]
        exact Nat.lt_add_of_pos_right (Nat.pos_of_ne_zero h0)
    have hres : SimpleVector.Insert v (k : Int) x
        = (⟨v.size_ + 1, if v.capacity_ = 0 then 1 else v.capacity_ * 2,
            (v.data_.take k ++ x :: v.data_.drop k)
              ++ List.replicate
                  ((if v.capacity_ = 0 then 1 else v.capacity_ * 2) - (v.size_ + 1)) 0⟩,
           Except.ok k) := by
      unfold SimpleVector.Insert
      rw [if_neg hcond]
      dsimp only
      simp only [Int.toNat_natCast]
      rw [if_pos hfull]
      rw [show allocDefault Int (if v.capacity_ = 0 then 1 else v.capacity_ * 2)
            = List.replicate (if v.capacity_ = 0 then 1 else v.capacity_ * 2) (0 : Int)
          from rfl]
      rw [insert_full_buffer v.data_ x k _ v.size_ hLn hkn hC]
    refine ⟨by rw [hres], rfl, by rw [hres]; rfl, ?_⟩
    rw [hres]
    dsimp only
    rw [SimpleVector.elems_mk, hRtake, hRdrop]
    have hplen : (v.data_.take k ++ x :: v.data_.drop k).length = v.size_ + 1 := by
      rw [List.length_append, List.length_cons, List.length_take, List.length_drop, hLn,
        Nat.min_eq_left hkn, ← Nat.add_assoc, Nat.add_sub_cancel' hkn]
    rw [List.take_left' hplen]
    have hdk3 : (v.data_.drop k).take (v.size_ - k) = v.data_.drop k :=
      List.take_of_length_le (Nat.le_of_eq (by rw [List.length_drop, hLn]))
    rw [hdk3]
  · have hlt2 : v.size_ < v.data_.length := by
      rw [hlen]
      exact Nat.lt_of_le_of_ne hsc hfull
    have hres : SimpleVector.Insert v (k : Int) x
        = (⟨v.size_ + 1, v.capacity_,
            (v.data_.take k ++ x :: (v.data_.drop k).take (v.size_ - k))
              ++ v.data_.drop (v.size_ + 1)⟩,
           Except.ok k) := by
      unfold SimpleVector.Insert
      rw [if_neg hcond]
      dsimp only
      simp only [Int.toNat_natCast]
      rw [if_neg hfull]
      rw [insert_nonfull_buffer v.data_ x k v.size_ hkn hlt2]
    refine ⟨by rw [hres], rfl, by rw [hres]; rfl, ?_⟩
    rw [hres]
    dsimp only
    rw [SimpleVector.elems_mk, hRtake, hRdrop]
    have hkdl : k ≤ v.data_.length := Nat.le_trans hkn (Nat.le_of_lt hlt2)
    have hsubl : v.size_ - k ≤ v.data_.length - k :=
      Nat.sub_le_sub_right (Nat.le_of_lt hlt2) k
    have hplen2 : (v.data_.take k ++ x :: (v.data_.drop k).take (v.size_ - k)).length
        = v.size_ + 1 := by
      rw [List.length_append, List.length_cons, List.length_take, List.length_take,
        List.length_drop, Nat.min_eq_left hkdl, Nat.min_eq_left hsubl,
        ← Nat.add_assoc, Nat.add_sub_cancel' hkn]
    rw [List.take_left' hplen2]

/-- Witness for C3: inserting 9 at begin (offset 0) of the full vector
[1,2,3] succeeds, returns offset 0 and yields the elements [9,1,2,3]. -/
theorem c3_insert_spec_witness :
    (SimpleVector.Insert (⟨3, 3, [1, 2, 3]⟩ : SimpleVector Int) ((0 : Nat) : Int) 9).2
        = Except.ok 0 ∧
    SimpleVector.elems (SimpleVector.Insert (⟨3, 3, [1, 2, 3]⟩ : SimpleVector Int)
        ((0 : Nat) : Int) 9).1 = [9, 1, 2, 3] ∧
    SimpleVector.GetSize (SimpleVector.Insert (⟨3, 3, [1, 2, 3]⟩ : SimpleVector Int)
        ((0 : Nat) : Int) 9).1 = 4 := by
  have h := c3_insert_spec ⟨3, 3, [1, 2, 3]⟩ 9 0 (by decide) (by decide)
  exact ⟨h.1, by decide, by decide⟩

/-- Helper: buffer contents after Erase's left shift of the suffix and the
reset of the vacated trailing slot. -/
theorem erase_buffer (L : List Int) (d : Int) (k n : Nat)
    (hk : k < n) (hn : n ≤ L.length) :
    (writeSeg L k (seg L (k + 1) n)).set (n - 1) d
      = (L.take k ++ (L.drop (k + 1)).take (n - 1 - k)) ++ d :: L.drop n := by
  have hn0 : 0 < n := Nat.lt_of_le_of_lt (Nat.zero_le k) hk
  have htkL : (L.take k).length = k := by
    rw [List.length_take]
    exact Nat.min_eq_left (Nat.le_trans (Nat.le_of_lt hk) hn)
  have hSlen : ((L.drop (k + 1)).take (n - (k + 1))).length = n - (k + 1) := by
    rw [List.length_take, List.length_drop]
    exact Nat.min_eq_left (Nat.sub_le_sub_right hn (k + 1))
  have e3 : n - 1 < L.length :=
    Nat.lt_of_lt_of_le (Nat.pred_lt (Nat.pos_iff_ne_zero.mp hn0)) hn
  have e4 : n - 1 + 1 = n := Nat.succ_pred_eq_of_pos hn0
  rw [natSub_one_sub]
  unfold writeSeg seg
  rw [hSlen, natAdd_sub_pred hk]
  have hpre : (L.take k ++ (L.drop (k + 1)).take (n - (k + 1))).length = n - 1 := by
    rw [List.length_append, htkL, hSlen]
    exact natAdd_sub_pred hk
  rw [List.set_append_right _ _ (Nat.le_of_eq hpre), hpre, Nat.sub_self]
  rw [List.drop_eq_getElem_cons e3, e4, List.set_cons_zero]

/-- C4: erasing the live element at offset k of a non-empty vector returns
offset k, removes exactly that element from the live sequence, keeps the
capacity, and resets the vacated trailing slot (old index size-1) to the
default value. -/
theorem c4_erase_spec (v : SimpleVector Int) (k : Nat)
    (hwf : SimpleVector.WF v) (hk : k < SimpleVector.GetSize v) :
    (SimpleVector.Erase v (k : Int)).2 = Except.ok k ∧
    SimpleVector.GetSize (SimpleVector.Erase v (k : Int)).1
        = SimpleVector.GetSize v - 1 ∧
    SimpleVector.GetCapacity (SimpleVector.Erase v (k : Int)).1
        = SimpleVector.GetCapacity v ∧
    SimpleVector.elems (SimpleVector.Erase v (k : Int)).1
        = (SimpleVector.elems v).take k ++ (SimpleVector.elems v).drop (k + 1) ∧
    SimpleVector.opIndex (SimpleVector.Erase v (k : Int)).1
        (SimpleVector.GetSize v - 1) = (default : Int) := by
  obtain ⟨hsc, hlen⟩ := hwf
  have hkn : k < v.size_ := hk
  have hnz : ¬ v.size_ = 0 :=
    Nat.pos_iff_ne_zero.mp (Nat.lt_of_le_of_lt (Nat.zero_le k) hkn)
  have hcond : ¬((k : Int) < 0 ∨ (k : Int) ≥ (v.size_ : Int)) := intNot_erase_oob hkn
  have hnlen : v.size_ ≤ v.data_.length := by
    rw [hlen]
    exact hsc
  have hres : SimpleVector.Erase v (k : Int)
      = (⟨v.size_ - 1, v.capacity_,
          (v.data_.take k ++ (v.data_.drop (k + 1)).take (v.size_ - 1 - k))
            ++ (default : Int) :: v.data_.drop v.size_⟩,
         Except.ok k) := by
    unfold SimpleVector.Erase
    rw [if_neg hnz, if_neg hcond]
    dsimp only
    simp only [Int.toNat_natCast]
    rw [erase_buffer v.data_ default k v.size_ hkn hnlen]
  have hRtake : (SimpleVector.elems v).take k = v.data_.take k := by
    unfold SimpleVector.elems
    rw [List.take_take, Nat.min_eq_left (Nat.le_of_lt hkn)]
  have hRdrop : (SimpleVector.elems v).drop (k + 1)
      = (v.data_.drop (k + 1)).take (v.size_ - 1 - k) := by
    unfold SimpleVector.elems
    rw [List.drop_take, natSub_one_sub]
  have hkdl : k ≤ v.data_.length := Nat.le_trans (Nat.le_of_lt hkn) hnlen
  have hsubl : v.size_ - 1 - k ≤ v.data_.length - (k + 1) := by
    rw [natSub_one_sub]
    exact Nat.sub_le_sub_right hnlen (k + 1)
  have hplen : (v.data_.take k ++ (v.data_.drop (k + 1)).take (v.size_ - 1 - k)).length
      = v.size_ - 1 := by
    rw [List.length_append, List.length_take, List.length_take, List.length_drop,
      Nat.min_eq_left hkdl, Nat.min_eq_left hsubl, natSub_one_sub]
    exact natAdd_sub_pred hkn
  refine ⟨by rw [hres], by rw [hres]; rfl, by rw [hres]; rfl, ?_, ?_⟩
  · rw [hres]
    dsimp only
    rw [SimpleVector.elems_mk, hRtake, hRdrop]
    rw [List.take_left' hplen]
  · rw [hres]
    unfold SimpleVector.opIndex SimpleVector.GetSize
    dsimp only
    rw [List.getD_eq_getElem?_getD,
      List.getElem?_append_right (Nat.le_of_eq hplen), hplen, Nat.sub_self,
      List.getElem?_cons_zero, Option.getD_some]

/-- Witness for C4: erase(begin()) on the vector [1,2,3] succeeds with
offset 0, the elements become [2,3], capacity stays 3, the returned
position refers to the element now holding 2, and the vacated trailing
slot was reset to 0. -/
theorem c4_erase_spec_witness :
    (SimpleVector.Erase (⟨3, 3, [1, 2, 3]⟩ : SimpleVector Int) ((0 : Nat) : Int)).2
        = Except.ok 0 ∧
    SimpleVector.elems (SimpleVector.Erase (⟨3, 3, [1, 2, 3]⟩ : SimpleVector Int)
        ((0 : Nat) : Int)).1 = [2, 3] ∧
    SimpleVector.GetCapacity (SimpleVector.Erase (⟨3, 3, [1, 2, 3]⟩ : SimpleVector Int)
        ((0 : Nat) : Int)).1 = 3 ∧
    SimpleVector.opIndex (SimpleVector.Erase (⟨3, 3, [1, 2, 3]⟩ : SimpleVector Int)
        ((0 : Nat) : Int)).1 0 = 2 := by
  have h := c4_erase_spec ⟨3, 3, [1, 2, 3]⟩ 0 (by decide) (by decide)
  exact ⟨h.1, by decide, by decide, by decide⟩

/-- Helper: std::equal agrees with list equality on ranges of equal
length. -/
theorem stdEqual_iff (l1 l2 : List Int) (h : l1.length = l2.length) :
    stdEqual l1 l2 = true ↔ l1 = l2 := by
  induction l1 generalizing l2 with
  | nil =>
    cases l2 with
    | nil => simp [stdEqual]
    | cons b bs => simp at h
  | cons a as ih =>
    cases l2 with
    | nil => simp at h
    | cons b bs =>
      simp only [stdEqual]
      by_cases hab : a = b
      · subst hab
        simp [ih bs (by simpa using h)]
      · simp [hab]

/-- Helper: std::lexicographical_compare decides exactly the lexicographic
strict order on lists (first differing pair decides; a strict prefix is
less). -/
theorem lexLt_iff (l1 l2 : List Int) :
    lexLt l1 l2 = true ↔ List.Lex (· < ·) l1 l2 := by
  induction l1 generalizing l2 with
  | nil =>
    cases l2 with
    | nil =>
      simp only [lexLt, Bool.false_eq_true, false_iff]
      intro h
      cases h
    | cons b bs =>
      simp only [lexLt, true_iff]
      exact List.Lex.nil
  | cons a as ih =>
    cases l2 with
    | nil =>
      simp only [lexLt, Bool.false_eq_true, false_iff]
      intro h
      cases h
    | cons b bs =>
      simp only [lexLt]
      rcases lt_trichotomy a b with h1 | h1 | h1
      · rw [if_pos h1]
        simp only [true_iff]
        exact List.Lex.rel h1
      · subst h1
        rw [if_neg (lt_irrefl a), if_neg (lt_irrefl a), ih bs]
        constructor
        · exact fun h => List.Lex.cons h
        · intro h
          cases h with
          | rel h' => exact absurd h' (lt_irrefl a)
          | cons h' => exact h'
      · rw [if_neg (lt_asymm h1), if_pos h1]
        simp only [Bool.false_eq_true, false_iff]
        intro h
        cases h with
        | rel h' => exact absurd h' (lt_asymm h1)
        | cons h' => exact absurd h1 (lt_irrefl a)

/-- C9: operator== holds iff the sizes agree and the live elements agree in
index order; operator< decides the lexicographic order (first differing
pair decides, a strict prefix is less, so [1,2] < [1,2,3] < [1,3]); and the
derived operators are exactly the stated combinations of == and <. -/
theorem c9_compare_spec (a b : SimpleVector Int)
    (hwa : SimpleVector.WF a) (hwb : SimpleVector.WF b) :
    (vecEq a b = true ↔
        SimpleVector.GetSize a = SimpleVector.GetSize b ∧
        SimpleVector.elems a = SimpleVector.elems b) ∧
    (vecLt a b = true
        ↔ List.Lex (· < ·) (SimpleVector.elems a) (SimpleVector.elems b)) ∧
    vecNe a b = !(vecEq a b) ∧
    vecGt a b = vecLt b a ∧
    vecLe a b = !(vecLt b a) ∧
    vecGe a b = !(vecLt a b) ∧
    vecLt (⟨2, 2, [1, 2]⟩ : SimpleVector Int) ⟨3, 3, [1, 2, 3]⟩ = true ∧
    vecLt (⟨3, 3, [1, 2, 3]⟩ : SimpleVector Int) ⟨2, 2, [1, 3]⟩ = true := by
  obtain ⟨hsa, hla⟩ := hwa
  obtain ⟨hsb, hlb⟩ := hwb
  have hea : (SimpleVector.elems a).length = a.size_ := by
    unfold SimpleVector.elems
    rw [List.length_take]
    exact Nat.min_eq_left (by rw [hla]; exact hsa)
  have heb : (SimpleVector.elems b).length = b.size_ := by
    unfold SimpleVector.elems
    rw [List.length_take]
    exact Nat.min_eq_left (by rw [hlb]; exact hsb)
  refine ⟨?_, lexLt_iff .., rfl, rfl, rfl, rfl, by decide, by decide⟩
  unfold vecEq
  rw [Bool.and_eq_true, beq_iff_eq]
  constructor
  · rintro ⟨h1, h2⟩
    refine ⟨h1, (stdEqual_iff _ _ ?_).mp h2⟩
    rw [hea, heb]
    exact h1
  · rintro ⟨h1, h2⟩
    exact ⟨h1, (stdEqual_iff _ _ (by rw [hea, heb]; exact h1)).mpr h2⟩

/-- Witness for C9: the vectors with live elements [1,2] (one of them with
excess capacity) compare equal. -/
theorem c9_compare_spec_witness :
    vecEq (⟨2, 2, [1, 2]⟩ : SimpleVector Int) ⟨2, 3, [1, 2, 9]⟩ = true := by
  have h := c9_compare_spec ⟨2, 2, [1, 2]⟩ ⟨2, 3, [1, 2, 9]⟩ (by decide) (by decide)
  exact h.1.mpr ⟨rfl, by decide⟩
